import Mathlib

/-!
Verification development for the persistent mini-REPL `rlm_repl.py`.

The Python source is shallowly embedded: pure helper functions become Lean
functions over `String` / `List Char`, Python `int` arguments that may be
negative become `Int`, fallible calls return `Except`, and the loops of the
source are translated as fuel-indexed structural recursions (the fuel is
always chosen large enough that it is never exhausted on the call sites the
embedding uses).
-/

namespace RlmRepl

/-! ## chunk_indices

Source (`rlm_repl.py`, `chunk_indices`):
```
if size <= 0: raise ValueError("size must be > 0")
if overlap < 0: raise ValueError("overlap must be >= 0")
if overlap >= size: raise ValueError("overlap must be < size")
content = context_ref.get("content", "")
n = len(content)
spans = []
step = size - overlap
for start in range(0, n, step):
    end = min(n, start + size)
    spans.append((start, end))
    if end >= n:
        break
return spans
```
The `for start in range(0, n, step)` loop with its `break` is embedded as
`chunkLoop`; the fuel `n + 1` is sufficient because each iteration advances
`start` by `step ≥ 1`.
-/

def chunkLoop (n size step : Nat) : Nat → Nat → List (Nat × Nat)
  | _, 0 => []
  | start, fuel + 1 =>
    if start < n then
      if n ≤ min n (start + size) then [(start, min n (start + size))]
      else (start, min n (start + size)) :: chunkLoop n size step (start + step) fuel
    else []

def chunk_indices (content : String) (size overlap : Int) :
    Except String (List (Nat × Nat)) :=
  if size ≤ 0 then .error "size must be > 0"
  else if overlap < 0 then .error "overlap must be >= 0"
  else if size ≤ overlap then .error "overlap must be < size"
  else
    .ok (chunkLoop content.length size.toNat (size - overlap).toNat 0
      (content.length + 1))

lemma chunkLoop_mem (n size step : Nat) (hsize : 0 < size) :
    ∀ (fuel start : Nat) (p : Nat × Nat), p ∈ chunkLoop n size step start fuel →
      start ≤ p.1 ∧ p.1 < p.2 ∧ p.2 ≤ n := by
  intro fuel
  induction fuel with
  | zero => intro start p hp; simp [chunkLoop] at hp
  | succ f ih =>
    intro start p hp
    by_cases h1 : start < n
    · by_cases h2 : n ≤ min n (start + size)
      · simp only [chunkLoop, if_pos h1, if_pos h2, List.mem_singleton] at hp
        subst hp
        simp only
        omega
      · simp only [chunkLoop, if_pos h1, if_neg h2, List.mem_cons] at hp
        rcases hp with hp | hp
        · subst hp
          simp only
          omega
        · have := ih (start + step) p hp
          omega
    · simp [chunkLoop, h1] at hp

lemma chunkLoop_cover (n size step : Nat) (hstep : 0 < step) (hss : step ≤ size) :
    ∀ (fuel start : Nat), n ≤ start + fuel → ∀ i, start ≤ i → i < n →
      ∃ p ∈ chunkLoop n size step start fuel, p.1 ≤ i ∧ i < p.2 := by
  intro fuel
  induction fuel with
  | zero => intro start hf i h1 h2; omega
  | succ f ih =>
    intro start hf i h1 h2
    have h1' : start < n := by omega
    by_cases h2' : n ≤ min n (start + size)
    · refine ⟨(start, min n (start + size)), ?_, ?_, ?_⟩
      · simp [chunkLoop, h1', h2']
      · exact h1
      · simp only; omega
    · by_cases hi : i < start + size
      · refine ⟨(start, min n (start + size)), ?_, ?_, ?_⟩
        · simp [chunkLoop, h1', h2']
        · exact h1
        · simp only; omega
      · obtain ⟨p, hp, hpi⟩ := ih (start + step) (by omega) i (by omega) h2
        refine ⟨p, ?_, hpi⟩
        simp only [chunkLoop, if_pos h1', if_neg h2', List.mem_cons]
        exact Or.inr hp

lemma chunkLoop_head (n size step : Nat) :
    ∀ (fuel start : Nat) (p : Nat × Nat),
      (chunkLoop n size step start fuel).head? = some p →
      p.1 = start ∧ p.2 = min n (start + size) := by
  intro fuel start p hp
  cases fuel with
  | zero => simp [chunkLoop] at hp
  | succ f =>
    by_cases h1 : start < n
    · by_cases h2 : n ≤ min n (start + size)
      · simp only [chunkLoop, if_pos h1, if_pos h2, List.head?_cons,
          Option.some.injEq] at hp
        subst hp; exact ⟨rfl, rfl⟩
      · simp only [chunkLoop, if_pos h1, if_neg h2, List.head?_cons,
          Option.some.injEq] at hp
        subst hp; exact ⟨rfl, rfl⟩
    · simp [chunkLoop, h1] at hp

lemma chunkLoop_ne_nil (n size step : Nat) :
    ∀ (fuel start : Nat), n ≤ start + fuel → start < n →
      chunkLoop n size step start fuel ≠ [] := by
  intro fuel start hf h1
  cases fuel with
  | zero => omega
  | succ f =>
    by_cases h2 : n ≤ min n (start + size)
    · simp [chunkLoop, h1, h2]
    · simp [chunkLoop, h1, h2]

lemma chunkLoop_chain (n size step : Nat) :
    ∀ (fuel start : Nat),
      List.Chain' (fun a b : Nat × Nat => b.1 = a.1 + step)
        (chunkLoop n size step start fuel) := by
  intro fuel
  induction fuel with
  | zero => intro start; simp [chunkLoop]
  | succ f ih =>
    intro start
    by_cases h1 : start < n
    · by_cases h2 : n ≤ min n (start + size)
      · simp [chunkLoop, h1, h2]
      · simp only [chunkLoop, if_pos h1, if_neg h2]
        refine List.chain'_cons'.mpr ⟨?_, ih (start + step)⟩
        intro y hy
        have := chunkLoop_head n size step f (start + step) y hy
        omega
    · simp [chunkLoop, h1]

lemma chunkLoop_dropLast (n size step : Nat) :
    ∀ (fuel start : Nat) (p : Nat × Nat),
      p ∈ (chunkLoop n size step start fuel).dropLast → p.2 = p.1 + size := by
  intro fuel
  induction fuel with
  | zero => intro start p hp; simp [chunkLoop] at hp
  | succ f ih =>
    intro start p hp
    by_cases h1 : start < n
    · by_cases h2 : n ≤ min n (start + size)
      · simp [chunkLoop, h1, h2] at hp
      · simp only [chunkLoop, if_pos h1, if_neg h2] at hp
        cases hl : chunkLoop n size step (start + step) f with
        | nil => rw [hl] at hp; simp at hp
        | cons y t =>
          rw [hl, List.dropLast_cons₂, List.mem_cons] at hp
          rcases hp with hp | hp
          · subst hp; simp only; omega
          · exact ih (start + step) p (by rw [hl]; exact hp)
    · simp [chunkLoop, h1] at hp

lemma chunkLoop_last (n size step : Nat) (hstep : 0 < step) (hss : step ≤ size) :
    ∀ (fuel start : Nat), n ≤ start + fuel → start < n →
      ∃ p, (chunkLoop n size step start fuel).getLast? = some p ∧ p.2 = n := by
  intro fuel
  induction fuel with
  | zero => intro start hf h1; omega
  | succ f ih =>
    intro start hf h1
    by_cases h2 : n ≤ min n (start + size)
    · refine ⟨(start, min n (start + size)), ?_, ?_⟩
      · simp [chunkLoop, h1, h2]
      · simp only; omega
    · have hlt : start + size < n := by omega
      have hnext : start + step < n := by omega
      obtain ⟨p, hp, hpn⟩ := ih (start + step) (by omega) hnext
      refine ⟨p, ?_, hpn⟩
      simp only [chunkLoop, if_pos h1, if_neg h2]
      cases hl : chunkLoop n size step (start + step) f with
      | nil => exact absurd hl (chunkLoop_ne_nil n size step f (start + step) (by omega) hnext)
      | cons y t =>
        rw [hl] at hp
        rw [List.getLast?_cons_cons]
        exact hp

lemma chain_combine (step size ov : Nat) (hso : size = step + ov) (hstep : 0 < step) :
    ∀ l : List (Nat × Nat),
      List.Chain' (fun a b : Nat × Nat => b.1 = a.1 + step) l →
      (∀ p ∈ l.dropLast, p.2 = p.1 + size) →
      List.Chain' (fun a b : Nat × Nat => a.2 = b.1 + ov ∧ a.1 < b.1) l := by
  intro l
  induction l with
  | nil => intro _ _; simp
  | cons a t ih =>
    cases t with
    | nil => intro _ _; simp
    | cons b t' =>
      intro hc hd
      rw [List.chain'_cons] at hc ⊢
      have ha : a.2 = a.1 + size := hd a (by rw [List.dropLast_cons₂]; exact List.mem_cons_self a _)
      refine ⟨⟨by omega, by omega⟩, ?_⟩
      exact ih hc.2 (fun p hp => hd p (by rw [List.dropLast_cons₂]; exact List.mem_cons_of_mem a hp))

/-- Claim C1: for every content string, every `size > 0` and every overlap with
`0 ≤ overlap < size`, the span list returned by `chunk_indices` exactly covers
`[0, len(content))` with no gaps, every span except possibly the last has
length `size`, consecutive spans overlap by exactly `overlap` characters (with
strictly increasing starts, so there is no empty span and no duplicated final
span), and the final span is clamped to `len(content)`. -/
theorem C1_chunk_indices_partition (content : String) (size overlap : Int)
    (hs : 0 < size) (ho : 0 ≤ overlap) (hov : overlap < size) :
    ∃ spans, chunk_indices content size overlap = .ok spans ∧
      (∀ i, i < content.length → ∃ p ∈ spans, p.1 ≤ i ∧ i < p.2) ∧
      (∀ p ∈ spans, p.1 < p.2 ∧ p.2 ≤ content.length) ∧
      (∀ p ∈ spans.dropLast, p.2 = p.1 + size.toNat) ∧
      List.Chain' (fun a b : Nat × Nat => a.2 = b.1 + overlap.toNat ∧ a.1 < b.1) spans ∧
      (content.length ≠ 0 → ∃ p, spans.getLast? = some p ∧ p.2 = content.length) ∧
      (content.length = 0 → spans = []) := by
  have h1 : ¬ size ≤ 0 := by omega
  have h2 : ¬ overlap < 0 := by omega
  have h3 : ¬ size ≤ overlap := by omega
  set n := content.length with hn
  set sz := size.toNat with hsz
  set st := (size - overlap).toNat with hst
  have hsz0 : 0 < sz := by omega
  have hst0 : 0 < st := by omega
  have hstsz : st ≤ sz := by omega
  have hsum : sz = st + overlap.toNat := by omega
  refine ⟨chunkLoop n sz st 0 (n + 1), ?_, ?_, ?_, ?_, ?_, ?_, ?_⟩
  · simp only [chunk_indices, if_neg h1, if_neg h2, if_neg h3]
  · intro i hi
    exact chunkLoop_cover n sz st hst0 hstsz (n + 1) 0 (by omega) i (by omega) hi
  · intro p hp
    have := chunkLoop_mem n sz st hsz0 (n + 1) 0 p hp
    omega
  · intro p hp
    exact chunkLoop_dropLast n sz st (n + 1) 0 p hp
  · exact chain_combine st sz overlap.toNat hsum hst0 _
      (chunkLoop_chain n sz st (n + 1) 0)
      (fun p hp => chunkLoop_dropLast n sz st (n + 1) 0 p hp)
  · intro hne
    exact chunkLoop_last n sz st hst0 hstsz (n + 1) 0 (by omega) (by omega)
  · intro h0
    have : n = 0 := h0
    rw [this]
    simp [chunkLoop]

theorem C1_chunk_indices_partition_witness :
    chunk_indices "abcdef" 3 1 = .ok [(0, 3), (2, 5), (4, 6)] ∧
    (∃ spans, chunk_indices "abcdef" 3 1 = .ok spans ∧
      (∀ i, i < "abcdef".length → ∃ p ∈ spans, p.1 ≤ i ∧ i < p.2) ∧
      (∀ p ∈ spans, p.1 < p.2 ∧ p.2 ≤ "abcdef".length) ∧
      (∀ p ∈ spans.dropLast, p.2 = p.1 + (3 : Int).toNat) ∧
      List.Chain' (fun a b : Nat × Nat => a.2 = b.1 + (1 : Int).toNat ∧ a.1 < b.1) spans ∧
      ("abcdef".length ≠ 0 → ∃ p, spans.getLast? = some p ∧ p.2 = "abcdef".length) ∧
      ("abcdef".length = 0 → spans = [])) :=
  ⟨rfl, C1_chunk_indices_partition "abcdef" 3 1 (by decide) (by decide) (by decide)⟩

/-- Claim C6: `chunk_indices` fails synchronously (with the `InvalidArgument`
condition of the spec, a `ValueError` in the source) for every call with
`size ≤ 0`, `overlap < 0` or `overlap ≥ size`; the failure happens before the
content is read, so the result on invalid arguments does not depend on the
content at all. -/
theorem C6_chunk_indices_invalid_arguments (size overlap : Int)
    (content content' : String)
    (h : size ≤ 0 ∨ overlap < 0 ∨ size ≤ overlap) :
    (∃ msg, chunk_indices content size overlap = .error msg) ∧
    chunk_indices content size overlap = chunk_indices content' size overlap := by
  by_cases h1 : size ≤ 0
  · exact ⟨⟨"size must be > 0", by simp [chunk_indices, h1]⟩, by simp [chunk_indices, h1]⟩
  · by_cases h2 : overlap < 0
    · exact ⟨⟨"overlap must be >= 0", by simp [chunk_indices, h1, h2]⟩,
        by simp [chunk_indices, h1, h2]⟩
    · have h3 : size ≤ overlap := by omega
      exact ⟨⟨"overlap must be < size", by simp [chunk_indices, h1, h2, h3]⟩,
        by simp [chunk_indices, h1, h2, h3]⟩

theorem C6_chunk_indices_invalid_arguments_witness :
    (∃ msg, chunk_indices "abc" 0 0 = .error msg) ∧
    (∃ msg, chunk_indices "abc" (-1) 0 = .error msg) ∧
    (∃ msg, chunk_indices "abc" 5 (-1) = .error msg) ∧
    (∃ msg, chunk_indices "abc" 5 5 = .error msg) ∧
    chunk_indices "abc" 0 0 = chunk_indices "a completely different content" 0 0 :=
  ⟨(C6_chunk_indices_invalid_arguments 0 0 "abc" "x" (by decide)).1,
   (C6_chunk_indices_invalid_arguments (-1) 0 "abc" "x" (by decide)).1,
   (C6_chunk_indices_invalid_arguments 5 (-1) "abc" "x" (by decide)).1,
   (C6_chunk_indices_invalid_arguments 5 5 "abc" "x" (by decide)).1,
   (C6_chunk_indices_invalid_arguments 0 0 "abc"
     "a completely different content" (by decide)).2⟩

/-! ## splitlines and line offsets

`grep` precomputes `line_offsets` from `content.splitlines()` with
`offset += len(line) + 1`.  The embedding models the newline boundary `'\x0a'`
(the boundary the spec speaks of; Python's `splitlines` also splits on some
rarer boundary characters).  Python's `splitlines` drops the final empty piece
produced by a trailing newline, which `pySplitlines` reproduces. -/

def splitOnNlAux : List Char → List Char → List (List Char)
  | [], cur => [cur.reverse]
  | c :: rest, cur =>
    if c = '\n' then cur.reverse :: splitOnNlAux rest []
    else splitOnNlAux rest (c :: cur)

def pySplitlines (s : String) : List String :=
  if s.data = [] then []
  else
    (if s.data.getLast? = some '\n' then (splitOnNlAux s.data []).dropLast
     else splitOnNlAux s.data []).map (fun l => ⟨l⟩)

def lineOffsetsAux : List String → Nat → List Nat
  | [], _ => []
  | l :: ls, off => off :: lineOffsetsAux ls (off + l.length + 1)

def line_offsets (content : String) : List Nat :=
  lineOffsetsAux (pySplitlines content) 0

/-- The `while lo <= hi` binary search of `_offset_to_line`, with Python's
`lo, hi` integers and `(lo + hi) // 2`; returns `hi + 1` (1-indexed line). -/
def otlLoop (offs : List Nat) (pos : Nat) : Int → Int → Nat → Int
  | _, hi, 0 => hi + 1
  | lo, hi, fuel + 1 =>
    if lo ≤ hi then
      if offs.getD ((lo + hi) / 2).toNat 0 ≤ pos then
        otlLoop offs pos ((lo + hi) / 2 + 1) hi fuel
      else
        otlLoop offs pos lo ((lo + hi) / 2 - 1) fuel
    else hi + 1

def _offset_to_line (offs : List Nat) (pos : Nat) : Int :=
  otlLoop offs pos 0 ((offs.length : Int) - 1) (offs.length + 1)

/-! ## grep and grep_count

The regular-expression engine is abstracted as a parameter
`reMatches pattern content flags` returning the spans of the non-overlapping
matches in left-to-right order; `re.finditer` (used by `grep`) and
`re.findall` (used by `grep_count`) enumerate exactly this sequence. -/

structure GrepHit where
  matched : String
  span : Nat × Nat
  line : Int
  snippet : String

def strSlice (content : String) (a b : Nat) : String :=
  ⟨(content.data.drop a).take (b - a)⟩

def mkHit (content : String) (offs : List Nat) (window : Int)
    (sp : Nat × Nat) : GrepHit :=
  { matched := strSlice content sp.1 sp.2
    span := sp
    line := _offset_to_line offs sp.1
    snippet := strSlice content (max 0 ((sp.1 : Int) - window)).toNat
      (min (content.length : Int) ((sp.2 : Int) + window)).toNat }

def grepLoop (mk : Nat × Nat → GrepHit) (maxMatches : Int) :
    List (Nat × Nat) → Nat → List GrepHit
  | [], _ => []
  | sp :: rest, cnt =>
    if maxMatches ≤ (cnt + 1 : Int) then [mk sp]
    else mk sp :: grepLoop mk maxMatches rest (cnt + 1)

def grep (reMatches : String → String → Int → List (Nat × Nat))
    (content pattern : String) (maxMatches window flags : Int) : List GrepHit :=
  grepLoop (mkHit content (line_offsets content) window) maxMatches
    (reMatches pattern content flags) 0

def grep_count (reMatches : String → String → Int → List (Nat × Nat))
    (content pattern : String) (flags : Int) : Int :=
  ((reMatches pattern content flags).length : Int)

lemma grepLoop_length (mk : Nat × Nat → GrepHit) (maxMatches : Int) :
    ∀ (l : List (Nat × Nat)) (cnt : Nat),
      (cnt : Int) + l.length ≤ maxMatches →
      (grepLoop mk maxMatches l cnt).length = l.length := by
  intro l
  induction l with
  | nil => intro cnt _; simp [grepLoop]
  | cons sp rest ih =>
    intro cnt h
    simp only [List.length_cons] at h
    by_cases hb : maxMatches ≤ (cnt + 1 : Int)
    · have h0 : rest.length = 0 := by omega
      simp [grepLoop, hb, h0]
    · simp only [grepLoop, if_neg hb, List.length_cons]
      rw [ih (cnt + 1) (by push_cast; push_cast at h; omega)]

/-- Claim C4: whenever `maxMatches` is at least the total number of
non-overlapping matches of the pattern, `grep` enumerates them all, so its
result length equals `grep_count` (which counts the same match sequence via
`re.findall`). -/
theorem C4_grep_length_eq_grep_count
    (reMatches : String → String → Int → List (Nat × Nat))
    (content pattern : String) (flags window maxMatches : Int)
    (h : ((reMatches pattern content flags).length : Int) ≤ maxMatches) :
    ((grep reMatches content pattern maxMatches window flags).length : Int) =
      grep_count reMatches content pattern flags := by
  unfold grep grep_count
  rw [grepLoop_length _ _ _ 0 (by push_cast; omega)]

theorem C4_grep_length_eq_grep_count_witness :
    ((grep (fun _ _ _ => [(0, 1), (1, 2)]) "ab" "." 20 200 0).length : Int) =
      grep_count (fun _ _ _ => [(0, 1), (1, 2)]) "ab" "." 0 ∧
    grep_count (fun _ _ _ => [(0, 1), (1, 2)]) "ab" "." 0 = 2 :=
  ⟨C4_grep_length_eq_grep_count (fun _ _ _ => [(0, 1), (1, 2)]) "ab" "." 0 200 20
    (by decide), by decide⟩

/-! ## correctness of the `_offset_to_line` binary search -/

def linePrefixLen (ls : List String) (i : Nat) : Nat :=
  ((ls.take i).map (fun l => l.length + 1)).sum

lemma lineOffsetsAux_length : ∀ (ls : List String) (off : Nat),
    (lineOffsetsAux ls off).length = ls.length := by
  intro ls
  induction ls with
  | nil => intro off; rfl
  | cons l ls ih => intro off; simp [lineOffsetsAux, ih]

lemma lineOffsetsAux_getD : ∀ (ls : List String) (off i : Nat), i < ls.length →
    (lineOffsetsAux ls off).getD i 0 = off + linePrefixLen ls i := by
  intro ls
  induction ls with
  | nil => intro off i h; simp at h
  | cons l ls ih =>
    intro off i h
    cases i with
    | zero => simp [lineOffsetsAux, linePrefixLen]
    | succ j =>
      have hj : j < ls.length := by simpa using h
      simp only [lineOffsetsAux, List.getD_cons_succ]
      rw [ih (off + l.length + 1) j hj]
      simp only [linePrefixLen, List.take_succ_cons, List.map_cons, List.sum_cons]
      omega

lemma linePrefixLen_mono : ∀ (ls : List String) (i j : Nat), i ≤ j →
    linePrefixLen ls i ≤ linePrefixLen ls j := by
  intro ls
  induction ls with
  | nil => intro i j _; simp [linePrefixLen]
  | cons l ls ih =>
    intro i j hij
    cases i with
    | zero =>
      simp only [linePrefixLen, List.take_zero, List.map_nil, List.sum_nil]
      exact Nat.zero_le _
    | succ i' =>
      cases j with
      | zero => omega
      | succ j' =>
        have hmono := ih i' j' (by omega)
        simp only [linePrefixLen] at hmono ⊢
        simp only [List.take_succ_cons, List.map_cons, List.sum_cons]
        omega

lemma line_offsets_sorted (content : String) :
    ∀ i j : Nat, i ≤ j → j < (line_offsets content).length →
      (line_offsets content).getD i 0 ≤ (line_offsets content).getD j 0 := by
  intro i j hij hj
  unfold line_offsets at *
  rw [lineOffsetsAux_length] at hj
  rw [lineOffsetsAux_getD _ 0 i (by omega), lineOffsetsAux_getD _ 0 j hj]
  have := linePrefixLen_mono (pySplitlines content) i j hij
  omega

lemma line_offsets_getD_zero (content : String)
    (h : line_offsets content ≠ []) : (line_offsets content).getD 0 0 = 0 := by
  unfold line_offsets at *
  cases hls : pySplitlines content with
  | nil => rw [hls] at h; simp [lineOffsetsAux] at h
  | cons l ls => simp [lineOffsetsAux]

lemma otlLoop_spec (offs : List Nat) (pos : Nat)
    (hsorted : ∀ i j : Nat, i ≤ j → j < offs.length →
      offs.getD i 0 ≤ offs.getD j 0) :
    ∀ (fuel : Nat) (lo hi : Int), 0 ≤ lo → lo ≤ hi + 1 → hi < (offs.length : Int) →
      (∀ i : Nat, (i : Int) < lo → offs.getD i 0 ≤ pos) →
      (∀ i : Nat, hi < (i : Int) → i < offs.length → pos < offs.getD i 0) →
      hi + 1 - lo < fuel →
      ∃ r : Nat, otlLoop offs pos lo hi fuel = (r : Int) ∧ r ≤ offs.length ∧
        (∀ i : Nat, i < r → offs.getD i 0 ≤ pos) ∧
        (∀ i : Nat, r ≤ i → i < offs.length → pos < offs.getD i 0) := by
  intro fuel
  induction fuel with
  | zero => intro lo hi h0 h1 _ _ _ hf; omega
  | succ f ih =>
    intro lo hi h0 h1 h2 hlow hhigh hf
    by_cases hcond : lo ≤ hi
    · by_cases hle : offs.getD ((lo + hi) / 2).toNat 0 ≤ pos
      · have hlow' : ∀ i : Nat, (i : Int) < (lo + hi) / 2 + 1 →
            offs.getD i 0 ≤ pos := by
          intro i hi'
          have hile : i ≤ ((lo + hi) / 2).toNat := by omega
          have := hsorted i ((lo + hi) / 2).toNat hile (by omega)
          omega
        obtain ⟨r, hr1, hr2⟩ :=
          ih ((lo + hi) / 2 + 1) hi (by omega) (by omega) h2 hlow' hhigh (by omega)
        refine ⟨r, ?_, hr2⟩
        simp only [otlLoop, if_pos hcond, if_pos hle]
        exact hr1
      · have hhigh' : ∀ i : Nat, (lo + hi) / 2 - 1 < (i : Int) →
            i < offs.length → pos < offs.getD i 0 := by
          intro i hi' hilen
          have := hsorted ((lo + hi) / 2).toNat i (by omega) hilen
          omega
        obtain ⟨r, hr1, hr2⟩ :=
          ih lo ((lo + hi) / 2 - 1) h0 (by omega) (by omega) hlow hhigh' (by omega)
        refine ⟨r, ?_, hr2⟩
        simp only [otlLoop, if_pos hcond, if_neg hle]
        exact hr1
    · refine ⟨(hi + 1).toNat, ?_, by omega, ?_, ?_⟩
      · simp only [otlLoop, if_neg hcond]
        omega
      · intro i hi'
        exact hlow i (by omega)
      · intro i hi1 hi2
        exact hhigh i (by omega) hi2

/-- Claim C5: line-number resolution maps a character offset to the 1-indexed
line whose precomputed start offset is the largest line-start offset `≤` the
given offset, via the binary search `_offset_to_line`; in particular on
`"a\nbb\nccc"` offset 3 resolves to line 2 and offset 0 to line 1 (also via a
`grep` hit whose match starts at offset 3). -/
theorem C5_offset_to_line_resolution (content : String) (pos : Nat)
    (h : line_offsets content ≠ []) :
    (∃ r : Nat, _offset_to_line (line_offsets content) pos = (r : Int) ∧
      1 ≤ r ∧ r ≤ (line_offsets content).length ∧
      (line_offsets content).getD (r - 1) 0 ≤ pos ∧
      (∀ j : Nat, j < (line_offsets content).length →
        (line_offsets content).getD j 0 ≤ pos → j ≤ r - 1)) ∧
    line_offsets "a\nbb\nccc" = [0, 2, 5] ∧
    _offset_to_line (line_offsets "a\nbb\nccc") 3 = 2 ∧
    _offset_to_line (line_offsets "a\nbb\nccc") 0 = 1 ∧
    (grep (fun _ _ _ => [(3, 5)]) "a\nbb\nccc" "bb" 20 200 0).map
      (fun hit => hit.line) = [2] := by
  refine ⟨?_, by decide, by decide, by decide, by decide⟩
  have hlen : 0 < (line_offsets content).length := List.length_pos.mpr h
  obtain ⟨r, hr1, hr2, hr3, hr4⟩ :=
    otlLoop_spec (line_offsets content) pos (line_offsets_sorted content)
      ((line_offsets content).length + 1) 0 (((line_offsets content).length : Int) - 1)
      (by omega) (by omega) (by omega)
      (by intro i hi'; omega)
      (by intro i hi1 hi2; omega)
      (by omega)
  have hz := line_offsets_getD_zero content h
  have hr0 : 1 ≤ r := by
    by_contra hr0
    have h00 := hr4 0 (by omega) (by omega)
    omega
  refine ⟨r, hr1, hr0, hr2, hr3 (r - 1) (by omega), ?_⟩
  intro j hjlen hjle
  by_contra hj
  have := hr4 j (by omega) hjlen
  omega

theorem C5_offset_to_line_resolution_witness :
    (∃ r : Nat, _offset_to_line (line_offsets "a\nbb\nccc") 3 = (r : Int) ∧
      1 ≤ r ∧ r ≤ (line_offsets "a\nbb\nccc").length ∧
      (line_offsets "a\nbb\nccc").getD (r - 1) 0 ≤ 3 ∧
      (∀ j : Nat, j < (line_offsets "a\nbb\nccc").length →
        (line_offsets "a\nbb\nccc").getD j 0 ≤ 3 → j ≤ r - 1)) ∧
    line_offsets "a\nbb\nccc" = [0, 2, 5] ∧
    _offset_to_line (line_offsets "a\nbb\nccc") 3 = 2 ∧
    _offset_to_line (line_offsets "a\nbb\nccc") 0 = 1 ∧
    (grep (fun _ _ _ => [(3, 5)]) "a\nbb\nccc" "bb" 20 200 0).map
      (fun hit => hit.line) = [2] :=
  C5_offset_to_line_resolution "a\nbb\nccc" 3 (by decide)

/-! ## extract_yaml_documents

Source:
```
docs = re.split(r'^---\s*$', content, flags=re.MULTILINE)
return [d.strip() for d in docs[:max_docs] if d.strip()]
```
The separator regex matches, at a line start, the three dashes followed by the
longest whitespace run after which an end-of-line position (end of string or a
following newline) holds — the greedy `\s*` with backtracking before the
multiline `$`.  `yamlSplitAux` scans the content, tracking whether the current
position is a line start, and splits at each leftmost separator match. -/

def isPySpace (c : Char) : Bool :=
  c = ' ' || c = '\t' || c = '\n' || c = '\r' || c = '\x0b' || c = '\x0c'

def pyStrip (s : String) : String :=
  ⟨((s.data.dropWhile isPySpace).reverse.dropWhile isPySpace).reverse⟩

def wsCount : List Char → Nat
  | [] => 0
  | c :: cs => if isPySpace c then wsCount cs + 1 else 0

def eolAt : List Char → Bool
  | [] => true
  | c :: _ => c = '\n'

/-- Largest `j` at most the given bound with an end-of-line position after
dropping `j` characters (the backtracking of the greedy `\s*` before `$`). -/
def findEol (rest : List Char) : Nat → Option Nat
  | 0 => if eolAt rest then some 0 else none
  | j + 1 => if eolAt (rest.drop (j + 1)) then some (j + 1) else findEol rest j

def sepMatchLen (cs : List Char) : Option Nat :=
  match cs with
  | '-' :: '-' :: '-' :: rest => (findEol rest (wsCount rest)).map (fun j => 3 + j)
  | _ => none

def yamlSplitAux : Nat → List Char → Bool → List Char → List (List Char)
  | 0, _, _, cur => [cur.reverse]
  | _ + 1, [], _, cur => [cur.reverse]
  | fuel + 1, c :: rest, atStart, cur =>
    if atStart then
      match sepMatchLen (c :: rest) with
      | some len =>
        cur.reverse ::
          yamlSplitAux fuel ((c :: rest).drop len)
            (decide (((c :: rest).take len).getLast? = some '\n')) []
      | none => yamlSplitAux fuel rest (c = '\n') (c :: cur)
    else yamlSplitAux fuel rest (c = '\n') (c :: cur)

def yamlSplit (content : String) : List String :=
  (yamlSplitAux (content.data.length + 1) content.data true []).map (fun l => ⟨l⟩)

/-- Python's `docs[:max_docs]` list slice (negative bounds count from the
end). -/
def pySliceTo (l : List String) (k : Int) : List String :=
  if 0 ≤ k then l.take k.toNat else l.take (l.length - (-k).toNat)

def extract_yaml_documents (content : String) (max_docs : Int) : List String :=
  ((pySliceTo (yamlSplit content) max_docs).map pyStrip).filter (fun d => d ≠ "")

/-- Modelled from the spec: the reading of the claim in which the slicing to
`max_docs` applies to the non-empty trimmed documents — up to `max_docs`
non-empty documents, in document order. -/
def extractYamlDocumentsSpec (content : String) (max_docs : Int) : List String :=
  pySliceTo (((yamlSplit content).map pyStrip).filter (fun d => d ≠ "")) max_docs

lemma filter_take_of_all {α : Type} (P : α → Bool) :
    ∀ (l : List α) (k : Nat), (∀ a ∈ l.take k, P a = true) →
      (l.take k).filter P = (l.filter P).take k := by
  intro l
  induction l with
  | nil => intro k _; simp
  | cons a t ih =>
    intro k hk
    cases k with
    | zero => simp
    | succ k' =>
      have ha : P a = true := hk a (by simp)
      simp only [List.take_succ_cons, List.filter_cons, ha, if_pos]
      rw [ih k' (fun x hx => hk x (by simp [List.take_succ_cons, hx]))]

/-- Claim C7 counterexample: on `"\n---\na\n---\nb"` with `maxDocs = 2` there
are two non-empty documents (`"a"` and `"b"`), yet `extract_yaml_documents`
returns only `["a"]`, because the `docs[:max_docs]` slice is applied to the
raw segments before empty segments are discarded (the first raw segment
`"\n"` trims to empty and still consumes a slot). -/
theorem C7_extract_yaml_documents_counterexample :
    yamlSplit "\n---\na\n---\nb" = ["\n", "\na\n", "\nb"] ∧
    extractYamlDocumentsSpec "\n---\na\n---\nb" 2 = ["a", "b"] ∧
    extract_yaml_documents "\n---\na\n---\nb" 2 = ["a"] ∧
    extract_yaml_documents "\n---\na\n---\nb" 2 ≠
      extractYamlDocumentsSpec "\n---\na\n---\nb" 2 := by
  refine ⟨by decide, by decide, by decide, by decide⟩

/-- Claim C7 (amended): `extract_yaml_documents` splits on whole `---`
separator lines, trims and discards empties, but applies the `maxDocs` cut to
the raw segments before discarding; whenever each of the first `maxDocs` raw
segments trims to a non-empty document, the result is exactly the first
`maxDocs` non-empty documents in document order. -/
theorem C7_extract_yaml_documents_amended (content : String) (max_docs : Int)
    (h0 : 0 ≤ max_docs)
    (h : ∀ d ∈ pySliceTo (yamlSplit content) max_docs, pyStrip d ≠ "") :
    extract_yaml_documents content max_docs =
      extractYamlDocumentsSpec content max_docs := by
  simp only [pySliceTo, if_pos h0] at h
  unfold extract_yaml_documents extractYamlDocumentsSpec pySliceTo
  simp only [if_pos h0]
  rw [List.map_take]
  refine filter_take_of_all _ _ _ ?_
  intro a ha
  rw [← List.map_take] at ha
  obtain ⟨d, hd, rfl⟩ := List.mem_map.mp ha
  simpa using h d hd

theorem C7_extract_yaml_documents_amended_witness :
    extract_yaml_documents "x\n---\na\n---\nb" 2 =
      extractYamlDocumentsSpec "x\n---\na\n---\nb" 2 ∧
    extract_yaml_documents "x\n---\na\n---\nb" 2 = ["x", "a"] :=
  ⟨C7_extract_yaml_documents_amended "x\n---\na\n---\nb" 2 (by decide) (by decide),
   by decide⟩

/-! ## time_range

The three timestamp regexes of `time_range` are embedded as concrete matchers
over `List Char` (`\d` as ASCII digits, `\w` as alphanumeric or underscore,
`\s` as the ASCII whitespace class, as in the content the tool targets).
`findAllAux` is `re.findall`: leftmost non-overlapping matches, scanning
position by position and resuming after each match. -/

def isWordChar (c : Char) : Bool := c.isAlphanum || c = '_'

inductive CharClass where
  | digit : CharClass
  | lit : Char → CharClass
  | tsp : CharClass
  | word : CharClass

def classMatch : CharClass → Char → Bool
  | .digit, c => c.isDigit
  | .lit a, c => c = a
  | .tsp, c => c = 'T' || c = ' '
  | .word, c => isWordChar c

def matchClasses : List CharClass → List Char → Option (List Char × List Char)
  | [], cs => some ([], cs)
  | _ :: _, [] => none
  | cl :: cls, c :: cs =>
    if classMatch cl c then
      (matchClasses cls cs).map (fun pr => (c :: pr.1, pr.2))
    else none

/-- `\d{4}-\d{2}-\d{2}[T ]\d{2}:\d{2}:\d{2}` -/
def isoClasses : List CharClass :=
  [.digit, .digit, .digit, .digit, .lit '-', .digit, .digit, .lit '-', .digit,
   .digit, .tsp, .digit, .digit, .lit ':', .digit, .digit, .lit ':', .digit,
   .digit]

/-- `\d{2}/\w{3}/\d{4}:\d{2}:\d{2}:\d{2}` -/
def apacheClasses : List CharClass :=
  [.digit, .digit, .lit '/', .word, .word, .word, .lit '/', .digit, .digit,
   .digit, .digit, .lit ':', .digit, .digit, .lit ':', .digit, .digit,
   .lit ':', .digit, .digit]

/-- `\d{2}:\d{2}:\d{2}`, the tail of the syslog pattern. -/
def timeClasses : List CharClass :=
  [.digit, .digit, .lit ':', .digit, .digit, .lit ':', .digit, .digit]

def matchISO (cs : List Char) : Option (List Char × List Char) :=
  matchClasses isoClasses cs

def matchApache (cs : List Char) : Option (List Char × List Char) :=
  matchClasses apacheClasses cs

def wsSplit (cs : List Char) : List Char × List Char :=
  (cs.takeWhile isPySpace, cs.dropWhile isPySpace)

/-- After the `\d{1,2}` of `\w{3}\s+\d{1,2}\s+\d{2}:\d{2}:\d{2}`: a mandatory
whitespace run then the time-of-day classes. -/
def sysAfterDigits (r : List Char) : Option (List Char × List Char) :=
  if (wsSplit r).1 = [] then none
  else (matchClasses timeClasses (wsSplit r).2).map
    (fun pr => ((wsSplit r).1 ++ pr.1, pr.2))

/-- `\w{3}\s+\d{1,2}\s+\d{2}:\d{2}:\d{2}` with the greedy, backtracking
`\d{1,2}` (two digits tried first, then one). -/
def matchSyslog (cs : List Char) : Option (List Char × List Char) :=
  match cs with
  | a :: b :: c :: rest =>
    if isWordChar a && isWordChar b && isWordChar c then
      if (wsSplit rest).1 = [] then none
      else
        match (wsSplit rest).2 with
        | [] => none
        | d1 :: r2 =>
          if d1.isDigit then
            let two : Option (List Char × List Char) :=
              match r2 with
              | d2 :: r3 =>
                if d2.isDigit then
                  (sysAfterDigits r3).map (fun pr => (d1 :: d2 :: pr.1, pr.2))
                else none
              | [] => none
            match two with
            | some pr => some (a :: b :: c :: ((wsSplit rest).1 ++ pr.1), pr.2)
            | none =>
              (sysAfterDigits r2).map
                (fun pr => (a :: b :: c :: ((wsSplit rest).1 ++ d1 :: pr.1), pr.2))
          else none
    else none
  | _ => none

def findAllAux (m : List Char → Option (List Char × List Char)) :
    Nat → List Char → List String
  | 0, _ => []
  | _ + 1, [] => []
  | fuel + 1, c :: rest =>
    match m (c :: rest) with
    | some pr => (⟨pr.1⟩ : String) :: findAllAux m fuel pr.2
    | none => findAllAux m fuel rest

def findallISO (content : String) : List String :=
  findAllAux matchISO (content.data.length + 1) content.data

def findallApache (content : String) : List String :=
  findAllAux matchApache (content.data.length + 1) content.data

def findallSyslog (content : String) : List String :=
  findAllAux matchSyslog (content.data.length + 1) content.data

/-- The `for pattern in patterns` loop of `time_range`: the first pattern with
any match supplies `matches[0]` and `matches[-1]`; otherwise both stay
`None`. -/
def trLoop : List (String → List String) → String → Option String × Option String
  | [], _ => (none, none)
  | f :: fs, content =>
    if (f content).isEmpty then trLoop fs content
    else ((f content).head?, (f content).getLast?)

def time_range (content : String) : Option String × Option String :=
  trLoop [findallISO, findallApache, findallSyslog] content

/-- Claim C8: `time_range` tries the ISO-like, then Apache access-log, then
syslog timestamp shapes in this fixed order; the first pattern with at least
one match anywhere supplies the first and last matched literal strings, the
other patterns are never consulted or merged; if no pattern matches, the
result is `(none, none)`. -/
theorem C8_time_range_priority (content : String) :
    (findallISO content ≠ [] →
      time_range content =
        ((findallISO content).head?, (findallISO content).getLast?)) ∧
    (findallISO content = [] → findallApache content ≠ [] →
      time_range content =
        ((findallApache content).head?, (findallApache content).getLast?)) ∧
    (findallISO content = [] → findallApache content = [] →
      findallSyslog content ≠ [] →
      time_range content =
        ((findallSyslog content).head?, (findallSyslog content).getLast?)) ∧
    (findallISO content = [] → findallApache content = [] →
      findallSyslog content = [] → time_range content = (none, none)) := by
  refine ⟨?_, ?_, ?_, ?_⟩
  · intro h1
    simp [time_range, trLoop, h1]
  · intro h1 h2
    simp [time_range, trLoop, h1, h2]
  · intro h1 h2 h3
    simp [time_range, trLoop, h1, h2, h3]
  · intro h1 h2 h3
    simp [time_range, trLoop, h1, h2, h3]

theorem C8_time_range_priority_witness :
    time_range "from 01/Jan/2024:00:00:01 until 02/Feb/2024:10:30:00" =
      (some "01/Jan/2024:00:00:01", some "02/Feb/2024:10:30:00") ∧
    time_range "no timestamps here" = (none, none) :=
  ⟨((C8_time_range_priority
      "from 01/Jan/2024:00:00:01 until 02/Feb/2024:10:30:00").2.1
        (by decide) (by decide)).trans (by decide),
   (C8_time_range_priority "no timestamps here").2.2.2
     (by decide) (by decide) (by decide)⟩

/-! ## stats

`stats` splits on newlines, counts non-empty lines via `strip`, computes the
average line length by integer division with a floor of 1 on the line count,
reports `files_loaded` when the context's `files` entry is truthy (a non-empty
list), and reports the case-insensitive `\b(ERROR|FATAL|CRITICAL)\b` and
`\bWARN(ING)?\b` counts only when at least one of the two is non-zero. -/

def matchTokenCI : List Char → List Char → Option (List Char)
  | [], cs => some cs
  | _ :: _, [] => none
  | t :: ts, c :: cs => if c.toUpper = t then matchTokenCI ts cs else none

def boundaryAfter : List Char → Bool
  | [] => true
  | c :: _ => !isWordChar c

/-- The alternatives of the token alternation, tried in order; an alternative
succeeds when it matches case-insensitively and a word boundary follows. -/
def tryTokens : List (List Char) → List Char → Option (List Char)
  | [], _ => none
  | t :: ts, cs =>
    match matchTokenCI t cs with
    | some rem => if boundaryAfter rem then some rem else tryTokens ts cs
    | none => tryTokens ts cs

/-- `len(re.findall(...))` for a word-boundary-delimited, case-insensitive
alternation of letter-only tokens: scan left to right; a match can only start
where the previous character is not a word character; scanning resumes after
each match (non-overlapping). -/
def scanCount (tokens : List (List Char)) : Nat → List Char → Bool → Nat
  | 0, _, _ => 0
  | _ + 1, [], _ => 0
  | fuel + 1, c :: rest, prevIsWord =>
    if prevIsWord then scanCount tokens fuel rest (isWordChar c)
    else
      match tryTokens tokens (c :: rest) with
      | some rem => scanCount tokens fuel rem true + 1
      | none => scanCount tokens fuel rest (isWordChar c)

def errTokenCount (content : String) : Nat :=
  scanCount [['E', 'R', 'R', 'O', 'R'], ['F', 'A', 'T', 'A', 'L'],
    ['C', 'R', 'I', 'T', 'I', 'C', 'A', 'L']]
    (content.data.length + 1) content.data false

def warnTokenCount (content : String) : Nat :=
  scanCount [['W', 'A', 'R', 'N', 'I', 'N', 'G'], ['W', 'A', 'R', 'N']]
    (content.data.length + 1) content.data false

structure StatsResult where
  total_chars : Nat
  total_lines : Nat
  non_empty_lines : Nat
  avg_line_length : Nat
  files_loaded : Option Nat
  error_count : Option Nat
  warning_count : Option Nat
deriving DecidableEq

def stats (content : String) (files : Option (List String)) : StatsResult :=
  { total_chars := content.length
    total_lines := (pySplitlines content).length
    non_empty_lines :=
      ((pySplitlines content).filter (fun l => pyStrip l ≠ "")).length
    avg_line_length := content.length / max (pySplitlines content).length 1
    files_loaded :=
      match files with
      | some fs => if fs ≠ [] then some fs.length else none
      | none => none
    error_count :=
      if errTokenCount content ≠ 0 ∨ warnTokenCount content ≠ 0 then
        some (errTokenCount content)
      else none
    warning_count :=
      if errTokenCount content ≠ 0 ∨ warnTokenCount content ≠ 0 then
        some (warnTokenCount content)
      else none }

/-- Claim C9: `stats` reports the character count, the newline-split line
count, the non-empty line count, and an average line length that is the floor
of characters divided by `max(lines, 1)`; it reports a file count exactly when
the context carries a non-empty `files` list; and it reports the
case-insensitive `ERROR|FATAL|CRITICAL` and `WARN/WARNING` token counts
exactly when at least one occurrence of either exists, omitting both
otherwise. -/
theorem C9_stats_fields (content : String) (files : Option (List String)) :
    (stats content files).total_chars = content.length ∧
    (stats content files).total_lines = (pySplitlines content).length ∧
    (stats content files).non_empty_lines =
      ((pySplitlines content).filter (fun l => pyStrip l ≠ "")).length ∧
    ((stats content files).avg_line_length * max (pySplitlines content).length 1
        ≤ content.length ∧
      content.length <
        ((stats content files).avg_line_length + 1) *
          max (pySplitlines content).length 1) ∧
    (∀ k, (stats content files).files_loaded = some k ↔
      ∃ fs, files = some fs ∧ fs ≠ [] ∧ k = fs.length) ∧
    ((stats content files).error_count = some (errTokenCount content) ∧
        (stats content files).warning_count = some (warnTokenCount content) ↔
      errTokenCount content ≠ 0 ∨ warnTokenCount content ≠ 0) ∧
    ((stats content files).error_count = none ∧
        (stats content files).warning_count = none ↔
      errTokenCount content = 0 ∧ warnTokenCount content = 0) := by
  have hm : 0 < max (pySplitlines content).length 1 := by omega
  refine ⟨rfl, rfl, rfl, ⟨Nat.div_mul_le_self _ _, ?_⟩, ?_, ?_, ?_⟩
  · exact (Nat.div_lt_iff_lt_mul hm).mp (Nat.lt_succ_self _)
  · intro k
    cases files with
    | none => simp [stats]
    | some fs =>
      by_cases hfs : fs = []
      · subst hfs; simp [stats]
      · simp only [stats, if_pos (by simpa using hfs), Option.some.injEq]
        constructor
        · intro hk; exact ⟨fs, rfl, hfs, hk.symm⟩
        · rintro ⟨fs', hfs', _, rfl⟩
          rw [hfs']
  · by_cases hc : errTokenCount content ≠ 0 ∨ warnTokenCount content ≠ 0
    · simp [stats, hc]
    · simp only [stats, if_neg hc]
      constructor
      · rintro ⟨h1, _⟩; exact absurd h1 (by simp)
      · intro h1; exact absurd h1 hc
  · by_cases hc : errTokenCount content ≠ 0 ∨ warnTokenCount content ≠ 0
    · simp only [stats, if_pos hc]
      constructor
      · rintro ⟨h1, _⟩; exact absurd h1 (by simp)
      · intro h1; omega
    · simp only [stats, if_neg hc]
      constructor
      · intro _; omega
      · intro _
        simp

theorem C9_stats_fields_witness :
    stats "ERROR boot\nwarn\n\n" (some ["f1", "f2"]) =
      { total_chars := 17, total_lines := 3, non_empty_lines := 2,
        avg_line_length := 5, files_loaded := some 2,
        error_count := some 1, warning_count := some 1 } ∧
    ((stats "ERROR boot\nwarn\n\n" (some ["f1", "f2"])).total_chars =
        ("ERROR boot\nwarn\n\n" : String).length ∧
      (stats "ERROR boot\nwarn\n\n" (some ["f1", "f2"])).total_lines =
        (pySplitlines "ERROR boot\nwarn\n\n").length ∧
      (stats "ERROR boot\nwarn\n\n" (some ["f1", "f2"])).non_empty_lines =
        ((pySplitlines "ERROR boot\nwarn\n\n").filter
          (fun l => pyStrip l ≠ "")).length ∧
      ((stats "ERROR boot\nwarn\n\n" (some ["f1", "f2"])).avg_line_length *
          max (pySplitlines "ERROR boot\nwarn\n\n").length 1 ≤
            ("ERROR boot\nwarn\n\n" : String).length ∧
        ("ERROR boot\nwarn\n\n" : String).length <
          ((stats "ERROR boot\nwarn\n\n" (some ["f1", "f2"])).avg_line_length + 1) *
            max (pySplitlines "ERROR boot\nwarn\n\n").length 1) ∧
      (∀ k, (stats "ERROR boot\nwarn\n\n" (some ["f1", "f2"])).files_loaded = some k ↔
        ∃ fs, (some ["f1", "f2"] : Option (List String)) = some fs ∧ fs ≠ [] ∧
          k = fs.length) ∧
      ((stats "ERROR boot\nwarn\n\n" (some ["f1", "f2"])).error_count =
          some (errTokenCount "ERROR boot\nwarn\n\n") ∧
        (stats "ERROR boot\nwarn\n\n" (some ["f1", "f2"])).warning_count =
          some (warnTokenCount "ERROR boot\nwarn\n\n") ↔
        errTokenCount "ERROR boot\nwarn\n\n" ≠ 0 ∨
          warnTokenCount "ERROR boot\nwarn\n\n" ≠ 0) ∧
      ((stats "ERROR boot\nwarn\n\n" (some ["f1", "f2"])).error_count = none ∧
        (stats "ERROR boot\nwarn\n\n" (some ["f1", "f2"])).warning_count = none ↔
        errTokenCount "ERROR boot\nwarn\n\n" = 0 ∧
          warnTokenCount "ERROR boot\nwarn\n\n" = 0)) :=
  ⟨by decide, C9_stats_fields "ERROR boot\nwarn\n\n" (some ["f1", "f2"])⟩

/-! ## The execution session: state, environment, serialization filter, exec

`cmd_exec` loads the session, builds the environment (persisted variables,
then `context` / `content` / `buffers` and the helper bindings), runs the
caller code once with stdout/stderr captured and exceptions absorbed into the
stderr buffer, reconciles `context`/`buffers` back, filters the persistence
candidates through `_filter_pickleable`, saves, and emits truncated output.
The Python `exec` and `pickle.dumps` are abstracted as parameters: `pyExec`
returns the post-run environment, the captured streams and the escaped
exception's traceback text (if any); `pick` is `_is_pickleable`, i.e. whether
`pickle.dumps` succeeds on a value. -/

/-- Dynamic Python values, as far as `cmd_exec` inspects them: dict-shaped,
list-shaped, strings, ints, and everything else as an uninterpreted runtime
object (helper functions, open file handles, ...). -/
inductive PyVal where
  | vstr : String → PyVal
  | vint : Int → PyVal
  | vlist : List PyVal → PyVal
  | vdict : List (String × PyVal) → PyVal
  | vobj : Nat → PyVal

abbrev Env := List (String × PyVal)

/-- Dict / environment lookup (Python dicts have unique keys; the first
binding wins). -/
def envGet : Env → String → Option PyVal
  | [], _ => none
  | (k', v) :: rest, k => if k' = k then some v else envGet rest k

/-- `d[k] = v` on a dict: replace the existing binding in place, else
append. -/
def envSet : Env → String → PyVal → Env
  | [], k, v => [(k, v)]
  | (k', v') :: rest, k, v =>
    if k' = k then (k, v) :: rest else (k', v') :: envSet rest k v

/-- `_filter_pickleable`: partition a mapping into the entries whose value
serializes (`kept`) and the names of those that do not (`dropped`). -/
def _filter_pickleable (pick : PyVal → Bool) : Env → Env × List String
  | [] => ([], [])
  | (k, v) :: rest =>
    let pr := _filter_pickleable pick rest
    if pick v then ((k, v) :: pr.1, pr.2) else (pr.1, k :: pr.2)

/-- A loaded session state: `state["context"]`, `state["buffers"]`,
`state["globals"]`. -/
structure RlmState where
  context : Env
  buffers : List PyVal
  globals : Env

def helperNames : List String :=
  ["peek", "grep", "grep_count", "find_lines", "chunk_indices", "write_chunks",
   "add_buffer", "extract_json_objects", "extract_yaml_documents",
   "time_range", "stats"]

def injected_keys : List String :=
  "__builtins__" :: "context" :: "content" :: "buffers" :: helperNames

/-- The execution environment: persisted variables, then `context`,
`content` (`ctx.get("content", "")`), `buffers`, then the helper bindings. -/
def buildEnv (st : RlmState) : Env :=
  helperNames.foldl (fun e n => envSet e n (.vobj 0))
    (envSet (envSet (envSet st.globals "context" (.vdict st.context))
      "content" ((envGet st.context "content").getD (.vstr "")))
      "buffers" (.vlist st.buffers))

/-- Outcome of `exec(code, env, env)` under the output redirections: the
post-run environment, the captured streams, and the traceback text of an
exception that escaped (if any). -/
structure ExecResult where
  env : Env
  out : String
  err : String
  exc : Option String

/-- Contents of the captured stderr buffer after the `try/except`:
whatever the code wrote, then `traceback.print_exc` output when an exception
escaped. -/
def capturedStderr (r : ExecResult) : String :=
  r.err ++ (match r.exc with | some tb => tb | none => "")

/-- Pull back a possibly mutated `context` binding: accepted only if it is
still a dict containing `"content"`. -/
def reconcileCtx (st : RlmState) (env : Env) : RlmState :=
  match envGet env "context" with
  | some (.vdict d) =>
    if (envGet d "content").isSome then { st with context := d } else st
  | _ => st

/-- Pull back `context` and then a possibly mutated `buffers` binding
(accepted only if still a list). -/
def reconcile (st : RlmState) (env : Env) : RlmState :=
  match envGet env "buffers" with
  | some (.vlist l) => { reconcileCtx st env with buffers := l }
  | _ => reconcileCtx st env

/-- The persistence candidates: every environment entry except the injected
names. -/
def persistCandidates (env : Env) : Env :=
  env.filter (fun kv => decide (kv.1 ∉ injected_keys))

def joinComma : List String → String
  | [] => ""
  | [s] => s
  | s :: rest => s ++ ", " ++ joinComma rest

def _truncate (s : String) (maxChars : Int) : String :=
  if maxChars ≤ 0 then ""
  else if (s.length : Int) ≤ maxChars then s
  else ⟨s.data.take maxChars.toNat⟩ ++ "\n... [truncated to " ++
    toString maxChars ++ " chars] ...\n"

/-- `cmd_exec` on a loaded session: returns the saved state, the emitted
stdout and stderr, and the return code. -/
def cmd_exec (pyExec : String → Env → ExecResult) (pick : PyVal → Bool)
    (st : RlmState) (code : String) (warnUnpickleable : Bool)
    (maxOutputChars : Int) : RlmState × String × String × Int :=
  let r := pyExec code (buildEnv st)
  let errCap := capturedStderr r
  let st2 := reconcile st r.env
  let fp := _filter_pickleable pick (persistCandidates r.env)
  let st3 := { st2 with globals := fp.1 }
  let err2 :=
    if fp.2 ≠ [] ∧ warnUnpickleable then
      errCap ++ (if errCap ≠ "" then "\n" else "") ++
        "Dropped unpickleable variables: " ++ joinComma fp.2 ++ "\n"
    else errCap
  (st3,
   if r.out ≠ "" then _truncate r.out maxOutputChars else "",
   if err2 ≠ "" then _truncate err2 maxOutputChars else "",
   0)

lemma envGet_envSet_same : ∀ (e : Env) (k : String) (v : PyVal),
    envGet (envSet e k v) k = some v := by
  intro e k v
  induction e with
  | nil => simp [envSet, envGet]
  | cons kv rest ih =>
    obtain ⟨k', v'⟩ := kv
    by_cases h : k' = k
    · simp [envSet, envGet, h]
    · simp [envSet, envGet, h, ih]

lemma envGet_envSet_other : ∀ (e : Env) (k k' : String) (v : PyVal), k ≠ k' →
    envGet (envSet e k v) k' = envGet e k' := by
  intro e k k' v hk
  induction e with
  | nil => simp [envSet, envGet, hk]
  | cons kv rest ih =>
    obtain ⟨k2, v2⟩ := kv
    by_cases h : k2 = k
    · subst h
      simp [envSet, envGet, hk]
    · simp [envSet, envGet, h, ih]

lemma envGet_foldl_vobj : ∀ (names : List String) (e : Env) (k : String),
    k ∉ names →
    envGet (names.foldl (fun e n => envSet e n (.vobj 0)) e) k = envGet e k := by
  intro names
  induction names with
  | nil => intro e k _; rfl
  | cons n ns ih =>
    intro e k hk
    simp only [List.mem_cons, not_or] at hk
    simp only [List.foldl_cons]
    rw [ih _ k hk.2]
    exact envGet_envSet_other _ n k _ (fun h => hk.1 h.symm)

lemma buildEnv_context (st : RlmState) :
    envGet (buildEnv st) "context" = some (.vdict st.context) := by
  unfold buildEnv
  rw [envGet_foldl_vobj _ _ _ (by decide)]
  rw [envGet_envSet_other _ _ _ _ (by decide)]
  rw [envGet_envSet_other _ _ _ _ (by decide)]
  exact envGet_envSet_same _ _ _

lemma buildEnv_buffers (st : RlmState) :
    envGet (buildEnv st) "buffers" = some (.vlist st.buffers) := by
  unfold buildEnv
  rw [envGet_foldl_vobj _ _ _ (by decide)]
  exact envGet_envSet_same _ _ _

lemma filter_pickleable_kept (pick : PyVal → Bool) : ∀ d : Env,
    (_filter_pickleable pick d).1 = d.filter (fun kv => pick kv.2) := by
  intro d
  induction d with
  | nil => rfl
  | cons kv rest ih =>
    obtain ⟨k, v⟩ := kv
    by_cases h : pick v
    · simp [_filter_pickleable, List.filter_cons, h, ih]
    · simp [_filter_pickleable, List.filter_cons, h, ih]

lemma filter_pickleable_dropped (pick : PyVal → Bool) : ∀ d : Env,
    (_filter_pickleable pick d).2 =
      (d.filter (fun kv => !pick kv.2)).map (fun kv => kv.1) := by
  intro d
  induction d with
  | nil => rfl
  | cons kv rest ih =>
    obtain ⟨k, v⟩ := kv
    by_cases h : pick v
    · simp [_filter_pickleable, List.filter_cons, h, ih]
    · simp [_filter_pickleable, List.filter_cons, h, ih]

lemma filter_pickleable_length (pick : PyVal → Bool) : ∀ d : Env,
    (_filter_pickleable pick d).1.length + (_filter_pickleable pick d).2.length
      = d.length := by
  intro d
  induction d with
  | nil => rfl
  | cons kv rest ih =>
    obtain ⟨k, v⟩ := kv
    by_cases h : pick v
    · simp only [_filter_pickleable, if_pos h, List.length_cons]
      omega
    · simp only [_filter_pickleable, if_neg h, List.length_cons]
      omega

lemma envGet_mem : ∀ (e : Env) (k : String) (v : PyVal),
    envGet e k = some v → (k, v) ∈ e := by
  intro e
  induction e with
  | nil => intro k v h; simp [envGet] at h
  | cons kv rest ih =>
    intro k v h
    obtain ⟨k', v'⟩ := kv
    by_cases hk : k' = k
    · subst hk
      simp [envGet] at h
      subst h
      exact List.mem_cons_self _ _
    · simp only [envGet, if_neg hk] at h
      exact List.mem_cons_of_mem _ (ih k v h)

lemma mem_envGet_nodup : ∀ (e : Env), (e.map Prod.fst).Nodup →
    ∀ (k : String) (v w : PyVal), envGet e k = some v → (k, w) ∈ e → w = v := by
  intro e
  induction e with
  | nil => intro _ k v w h; simp [envGet] at h
  | cons kv rest ih =>
    intro hnd k v w hget hmem
    obtain ⟨k', v'⟩ := kv
    simp only [List.map_cons, List.nodup_cons] at hnd
    by_cases hk : k' = k
    · subst hk
      simp [envGet] at hget
      rcases List.mem_cons.mp hmem with hmem | hmem
      · injection hmem with h1 h2
        rw [h2, hget]
      · exact absurd (List.mem_map.mpr ⟨(k', w), hmem, rfl⟩) hnd.1
    · simp only [envGet, if_neg hk] at hget
      rcases List.mem_cons.mp hmem with hmem | hmem
      · injection hmem with h1 h2
        exact absurd h1.symm hk
      · exact ih hnd.2 k v w hget hmem

lemma reconcileCtx_self (st : RlmState) (env : Env)
    (hc : envGet env "context" = some (.vdict st.context)) :
    reconcileCtx st env = st := by
  simp only [reconcileCtx, hc]
  by_cases hs : (envGet st.context "content").isSome
  · rw [if_pos hs]
  · rw [if_neg hs]

lemma reconcile_self (st : RlmState) (env : Env)
    (hc : envGet env "context" = some (.vdict st.context))
    (hb : envGet env "buffers" = some (.vlist st.buffers)) :
    reconcile st env = st := by
  simp only [reconcile, hb, reconcileCtx_self st env hc]

/-- Claim C2: when the executed code raises, the exception is caught, its
traceback text is appended to the captured stderr, the session is still
reconciled and persisted exactly as on a non-raising run with the same
post-run environment, and `cmd_exec` completes normally with return code 0
(the save step is always reached). -/
theorem C2_exec_error_recovered (pyExec : String → Env → ExecResult)
    (pick : PyVal → Bool) (st : RlmState) (code : String)
    (warnUnpickleable : Bool) (maxOutputChars : Int) (tb : String)
    (hctx : (envGet st.context "content").isSome = true)
    (hexc : (pyExec code (buildEnv st)).exc = some tb) :
    capturedStderr (pyExec code (buildEnv st)) =
      (pyExec code (buildEnv st)).err ++ tb ∧
    (cmd_exec pyExec pick st code warnUnpickleable maxOutputChars).1 =
      { reconcile st (pyExec code (buildEnv st)).env with
        globals := (_filter_pickleable pick
          (persistCandidates (pyExec code (buildEnv st)).env)).1 } ∧
    (cmd_exec pyExec pick st code warnUnpickleable maxOutputChars).1 =
      (cmd_exec (fun c e => { pyExec c e with exc := none })
        pick st code warnUnpickleable maxOutputChars).1 ∧
    (cmd_exec pyExec pick st code warnUnpickleable maxOutputChars).2.2.2 = 0 := by
  refine ⟨?_, rfl, rfl, rfl⟩
  simp [capturedStderr, hexc]

/-- A concrete session used by the run-level witnesses. -/
def stDemo : RlmState :=
  { context := [("path", .vstr "p"), ("content", .vstr "abc")]
    buffers := [.vstr "b0"]
    globals := [("x", .vint 1)] }

/-- A run that writes to stderr and then raises. -/
def execBoom : String → Env → ExecResult :=
  fun _ e => { env := e, out := "", err := "boom\n",
               exc := some "ZeroDivisionError\n" }

def pickAll : PyVal → Bool := fun _ => true

theorem C2_exec_error_recovered_witness :
    capturedStderr (execBoom "1/0" (buildEnv stDemo)) =
      (execBoom "1/0" (buildEnv stDemo)).err ++ "ZeroDivisionError\n" ∧
    (cmd_exec execBoom pickAll stDemo "1/0" true 8000).1 =
      { reconcile stDemo (execBoom "1/0" (buildEnv stDemo)).env with
        globals := (_filter_pickleable pickAll
          (persistCandidates (execBoom "1/0" (buildEnv stDemo)).env)).1 } ∧
    (cmd_exec execBoom pickAll stDemo "1/0" true 8000).1 =
      (cmd_exec (fun c e => { execBoom c e with exc := none })
        pickAll stDemo "1/0" true 8000).1 ∧
    (cmd_exec execBoom pickAll stDemo "1/0" true 8000).2.2.2 = 0 :=
  C2_exec_error_recovered execBoom pickAll stDemo "1/0" true 8000
    "ZeroDivisionError\n" rfl rfl

/-- Claim C3: `_filter_pickleable` partitions a candidate mapping into the
entries whose value serializes and the names (never the values — the report
is a list of names by construction) of those that do not; serialization
failure is a classification outcome, not an error (every entry lands in
exactly one part); and after a run, a variable whose value the filter
rejects is absent from the persisted globals and its name appears in the
dropped-names report. -/
theorem C3_filter_pickleable_partition (pick : PyVal → Bool) (d : Env)
    (pyExec : String → Env → ExecResult) (st : RlmState) (code : String)
    (warnUnpickleable : Bool) (maxOutputChars : Int) (k : String) (v : PyVal)
    (hnd : (((pyExec code (buildEnv st)).env).map Prod.fst).Nodup)
    (hget : envGet (pyExec code (buildEnv st)).env k = some v)
    (hpick : pick v = false) :
    (∀ k' v', (k', v') ∈ (_filter_pickleable pick d).1 ↔
      (k', v') ∈ d ∧ pick v' = true) ∧
    (∀ k', k' ∈ (_filter_pickleable pick d).2 ↔
      ∃ v', (k', v') ∈ d ∧ pick v' = false) ∧
    (_filter_pickleable pick d).1.length +
      (_filter_pickleable pick d).2.length = d.length ∧
    (∀ p ∈ (cmd_exec pyExec pick st code warnUnpickleable
        maxOutputChars).1.globals, p.1 ≠ k) ∧
    (k ∉ injected_keys →
      k ∈ (_filter_pickleable pick
        (persistCandidates (pyExec code (buildEnv st)).env)).2) := by
  refine ⟨?_, ?_, filter_pickleable_length pick d, ?_, ?_⟩
  · intro k' v'
    rw [filter_pickleable_kept]
    simp [List.mem_filter]
  · intro k'
    rw [filter_pickleable_dropped]
    constructor
    · intro hk'
      obtain ⟨⟨k2, v2⟩, hmem, hfst⟩ := List.mem_map.mp hk'
      rw [List.mem_filter] at hmem
      have hk2 : k2 = k' := hfst
      subst hk2
      exact ⟨v2, hmem.1, by simpa using hmem.2⟩
    · rintro ⟨v', hv1, hv2⟩
      exact List.mem_map.mpr
        ⟨(k', v'), List.mem_filter.mpr ⟨hv1, by simp [hv2]⟩, rfl⟩
  · intro p hp
    obtain ⟨pk, pv⟩ := p
    intro hpk
    have hpk' : pk = k := hpk
    subst hpk'
    have hglobals : (cmd_exec pyExec pick st code warnUnpickleable
        maxOutputChars).1.globals =
        (_filter_pickleable pick
          (persistCandidates (pyExec code (buildEnv st)).env)).1 := rfl
    rw [hglobals, filter_pickleable_kept, List.mem_filter] at hp
    have hpc := hp.1
    rw [persistCandidates, List.mem_filter] at hpc
    have hpv : pv = v :=
      mem_envGet_nodup _ hnd pk v pv hget hpc.1
    have hpick2 : pick pv = true := hp.2
    rw [hpv, hpick] at hpick2
    exact absurd hpick2 (by simp)
  · intro hkinj
    rw [filter_pickleable_dropped]
    refine List.mem_map.mpr
      ⟨(k, v), List.mem_filter.mpr ⟨?_, by simp [hpick]⟩, rfl⟩
    rw [persistCandidates, List.mem_filter]
    exact ⟨envGet_mem _ k v hget, by simpa using hkinj⟩

/-- A run that binds a new variable to a non-serializable resource. -/
def execAddsHandle : String → Env → ExecResult :=
  fun _ e => { env := e ++ [("handle", PyVal.vobj 7)], out := "", err := "",
               exc := none }

/-- `_is_pickleable`: uninterpreted runtime objects do not pickle. -/
def pickNoObj : PyVal → Bool :=
  fun v => match v with
  | .vobj _ => false
  | _ => true

theorem C3_filter_pickleable_partition_witness :
    (∀ k' v', (k', v') ∈ (_filter_pickleable pickNoObj
        [("a", PyVal.vint 1), ("b", PyVal.vobj 9)]).1 ↔
      (k', v') ∈ [("a", PyVal.vint 1), ("b", PyVal.vobj 9)] ∧
        pickNoObj v' = true) ∧
    (∀ k', k' ∈ (_filter_pickleable pickNoObj
        [("a", PyVal.vint 1), ("b", PyVal.vobj 9)]).2 ↔
      ∃ v', (k', v') ∈ [("a", PyVal.vint 1), ("b", PyVal.vobj 9)] ∧
        pickNoObj v' = false) ∧
    (_filter_pickleable pickNoObj [("a", PyVal.vint 1), ("b", PyVal.vobj 9)]).1.length +
      (_filter_pickleable pickNoObj [("a", PyVal.vint 1), ("b", PyVal.vobj 9)]).2.length =
      ([("a", PyVal.vint 1), ("b", PyVal.vobj 9)] : Env).length ∧
    (∀ p ∈ (cmd_exec execAddsHandle pickNoObj stDemo "h = open()" true
        8000).1.globals, p.1 ≠ "handle") ∧
    ("handle" ∉ injected_keys →
      "handle" ∈ (_filter_pickleable pickNoObj
        (persistCandidates (execAddsHandle "h = open()"
          (buildEnv stDemo)).env)).2) :=
  C3_filter_pickleable_partition pickNoObj
    [("a", PyVal.vint 1), ("b", PyVal.vobj 9)]
    execAddsHandle stDemo "h = open()" true 8000 "handle" (PyVal.vobj 7)
    (by decide) rfl rfl

/-- Claim C10: a run that only rebinds the injected `content` variable has no
effect on the saved session — the saved context (hence its `content` field)
and buffers are unchanged, and no variable named `content` is persisted,
because `content` is among the injected keys excluded from persistence and
reconciliation reads only the `context` and `buffers` bindings. -/
theorem C10_content_rebinding_frame (pyExec : String → Env → ExecResult)
    (pick : PyVal → Bool) (st : RlmState) (code : String)
    (warnUnpickleable : Bool) (maxOutputChars : Int) (v : PyVal)
    (henv : (pyExec code (buildEnv st)).env = envSet (buildEnv st) "content" v) :
    (cmd_exec pyExec pick st code warnUnpickleable maxOutputChars).1.context
      = st.context ∧
    (cmd_exec pyExec pick st code warnUnpickleable maxOutputChars).1.buffers
      = st.buffers ∧
    envGet (cmd_exec pyExec pick st code warnUnpickleable
        maxOutputChars).1.context "content" = envGet st.context "content" ∧
    (∀ p ∈ (cmd_exec pyExec pick st code warnUnpickleable
        maxOutputChars).1.globals, p.1 ≠ "content") := by
  have hc : envGet (pyExec code (buildEnv st)).env "context"
      = some (.vdict st.context) := by
    rw [henv, envGet_envSet_other _ _ _ _ (by decide)]
    exact buildEnv_context st
  have hb : envGet (pyExec code (buildEnv st)).env "buffers"
      = some (.vlist st.buffers) := by
    rw [henv, envGet_envSet_other _ _ _ _ (by decide)]
    exact buildEnv_buffers st
  have hrec : reconcile st (pyExec code (buildEnv st)).env = st :=
    reconcile_self st _ hc hb
  refine ⟨?_, ?_, ?_, ?_⟩
  · show (reconcile st (pyExec code (buildEnv st)).env).context = st.context
    rw [hrec]
  · show (reconcile st (pyExec code (buildEnv st)).env).buffers = st.buffers
    rw [hrec]
  · show envGet (reconcile st (pyExec code (buildEnv st)).env).context "content"
      = envGet st.context "content"
    rw [hrec]
  · intro p hp
    have hglobals : (cmd_exec pyExec pick st code warnUnpickleable
        maxOutputChars).1.globals =
        (_filter_pickleable pick
          (persistCandidates (pyExec code (buildEnv st)).env)).1 := rfl
    rw [hglobals, filter_pickleable_kept, List.mem_filter] at hp
    have hpc := hp.1
    rw [persistCandidates, List.mem_filter] at hpc
    have h2 := hpc.2
    intro hpe
    rw [hpe] at h2
    exact (of_decide_eq_true h2) (by decide)

/-- A run that does nothing but rebind the injected `content` name. -/
def execHijack : String → Env → ExecResult :=
  fun _ e => { env := envSet e "content" (PyVal.vstr "HIJACKED"), out := "",
               err := "", exc := none }

theorem C10_content_rebinding_frame_witness :
    (cmd_exec execHijack pickAll stDemo "content = 1" true 8000).1.context
      = stDemo.context ∧
    (cmd_exec execHijack pickAll stDemo "content = 1" true 8000).1.buffers
      = stDemo.buffers ∧
    envGet (cmd_exec execHijack pickAll stDemo "content = 1"
        true 8000).1.context "content" = envGet stDemo.context "content" ∧
    (∀ p ∈ (cmd_exec execHijack pickAll stDemo "content = 1" true
        8000).1.globals, p.1 ≠ "content") :=
  C10_content_rebinding_frame execHijack pickAll stDemo "content = 1" true 8000
    (PyVal.vstr "HIJACKED") rfl

end RlmRepl
